import Mathlib

/-!
Shallow embedding of the accounting/pricing core of `src/src/lib.rs`
(constant-product AMM: pool record, swap pricing, liquidity math,
multi-hop router, fee ledger).

Machine integers are modelled as `Nat` with explicit width bookkeeping:
`checked_*` operations mirror Rust's `checked_add/sub/mul/div` on
`u64`/`u128`, `cast_u64` mirrors a plain `as u64` cast (truncation mod
2^64).  A Rust `.unwrap()` on a failed checked operation aborts the whole
transaction in the host; it is modelled as the error `arithmeticFault`.
External effects (token transfers, mint/burn, PDA checks) move value held
by external collaborators and do not touch the pool record; the record
level functions here model exactly the state transition each processor
commits to the pool account.
-/

namespace GorbSwap

def U64_SIZE : Nat := 2 ^ 64

def U128_SIZE : Nat := 2 ^ 128

/-- Error taxonomy used by the processors (the subset of `ProgramError`
values this core produces, plus `arithmeticFault` for an `.unwrap()` panic
on a failed checked operation, which aborts the enclosing transaction). -/
inductive PErr where
  | invalidArgument
  | insufficientFunds
  | notEnoughAccountKeys
  | invalidAccountData
  | arithmeticFault
deriving DecidableEq, Repr

/-- `u128::checked_mul`. -/
def checked_mul_u128 (a b : Nat) : Option Nat :=
  if a * b < U128_SIZE then some (a * b) else none

/-- `u128::checked_add`. -/
def checked_add_u128 (a b : Nat) : Option Nat :=
  if a + b < U128_SIZE then some (a + b) else none

/-- `u64::checked_add`. -/
def checked_add_u64 (a b : Nat) : Option Nat :=
  if a + b < U64_SIZE then some (a + b) else none

/-- `u64::checked_sub` (same for u128: fails iff the subtrahend is larger). -/
def checked_sub (a b : Nat) : Option Nat :=
  if b ≤ a then some (a - b) else none

/-- `u128::checked_div`: fails iff the divisor is zero. -/
def checked_div (a b : Nat) : Option Nat :=
  if b = 0 then none else some (a / b)

/-- `as u64` cast: truncation modulo 2^64. -/
def cast_u64 (a : Nat) : Nat := a % U64_SIZE

/-- `u128` wrapping multiply (plain `*` on u128, as in the fee expression
`amount_in as u128 * 3`). -/
def wrap_mul_u128 (a b : Nat) : Nat := a * b % U128_SIZE

/-- Pool state (struct `Pool`, src/src/lib.rs:203).  Pubkeys are opaque
identities, modelled as `Nat`; `Pubkey::default()` is `0`. -/
structure Pool where
  token_a : Nat
  token_b : Nat
  bump : Nat
  reserve_a : Nat
  reserve_b : Nat
  total_lp_supply : Nat
  fee_collected_a : Nat
  fee_collected_b : Nat
  fee_treasury : Nat
deriving DecidableEq, Repr

/-- `calculate_swap_output` (src/src/lib.rs:2160): constant-product output
with the 0.3% fee folded in, computed in u128 with checked arithmetic and
a final `as u64` cast. -/
def calculate_swap_output (amount_in reserve_in reserve_out : Nat) : Except PErr Nat :=
  if amount_in = 0 ∨ reserve_in = 0 ∨ reserve_out = 0 then
    .error .invalidArgument
  else
    match checked_mul_u128 amount_in 997 with
    | none => .error .invalidArgument
    | some amount_in_with_fee =>
      match checked_mul_u128 amount_in_with_fee reserve_out with
      | none => .error .invalidArgument
      | some numerator =>
        match checked_mul_u128 reserve_in 1000 with
        | none => .error .invalidArgument
        | some scaled_reserve_in =>
          match checked_add_u128 scaled_reserve_in amount_in_with_fee with
          | none => .error .invalidArgument
          | some denominator =>
            if denominator = 0 then .error .invalidArgument
            else .ok (cast_u64 (numerator / denominator))

/-- One Newton iteration step of `IntegerSqrt for u128`
(src/src/lib.rs:2190): `while y < x { x = y; y = (x + self / x) / 2 }`.
The loop variable `x` strictly decreases, so a fuel counter that starts at
`x` never reaches the cut-off branch (and at fuel `0` the only possible
`x` is `0`, where the loop guard `y < 0` is false as well). -/
def isqrt_iter (n : Nat) : Nat → Nat → Nat → Nat
  | 0, x, _ => x
  | fuel + 1, x, y =>
    if y < x then isqrt_iter n fuel y ((y + n / y) / 2) else x

/-- `integer_sqrt` for u128 (src/src/lib.rs:2191): Newton's method integer
square root. -/
def integer_sqrt (n : Nat) : Nat :=
  if n < 2 then n else isqrt_iter n n n ((n + 1) / 2)

/-- The pool record committed by `process_init_pool` on the regular
two-token path (src/src/lib.rs:808-843): reserves are the caller-supplied
amounts, the initial share supply is `isqrt(amount_a * amount_b)`
(u128 `checked_mul().unwrap()` then `integer_sqrt` and an `as u64` cast),
fee counters start at zero and the treasury is `Pubkey::default()`. -/
def process_init_pool (token_a token_b bump amount_a amount_b : Nat) : Except PErr Pool :=
  match checked_mul_u128 amount_a amount_b with
  | none => .error .arithmeticFault
  | some product =>
    .ok { token_a := token_a
          token_b := token_b
          bump := bump
          reserve_a := amount_a
          reserve_b := amount_b
          total_lp_supply := cast_u64 (integer_sqrt product)
          fee_collected_a := 0
          fee_collected_b := 0
          fee_treasury := 0 }

/-- The single-hop swap update shared by `process_swap`
(src/src/lib.rs:1659-1737) and each hop of the multihop router
(src/src/lib.rs:2042-2144, a verbatim duplicate of the same update):
price the input with `calculate_swap_output` against the direction-ordered
reserves, add `amount_in` to the input-side reserve, subtract the output
from the other reserve, and accrue `amount_in * 3 / 1000` (computed in
u128, cast to u64) on the input side's fee counter.  All reserve/fee
updates are `checked_add`/`checked_sub` with `.unwrap()`.  Returns the
updated record and the output amount transferred to the user. -/
def swap_step (pool : Pool) (amount_in : Nat) (direction_a_to_b : Bool) :
    Except PErr (Pool × Nat) :=
  let reserve_in := if direction_a_to_b then pool.reserve_a else pool.reserve_b
  let reserve_out := if direction_a_to_b then pool.reserve_b else pool.reserve_a
  match calculate_swap_output amount_in reserve_in reserve_out with
  | .error e => .error e
  | .ok amount_out =>
    let fee_amount := cast_u64 (wrap_mul_u128 amount_in 3 / 1000)
    if direction_a_to_b then
      match checked_add_u64 pool.reserve_a amount_in,
            checked_sub pool.reserve_b amount_out,
            checked_add_u64 pool.fee_collected_a fee_amount with
      | some ra, some rb, some fa =>
        .ok ({ pool with reserve_a := ra, reserve_b := rb, fee_collected_a := fa },
             amount_out)
      | _, _, _ => .error .arithmeticFault
    else
      match checked_add_u64 pool.reserve_b amount_in,
            checked_sub pool.reserve_a amount_out,
            checked_add_u64 pool.fee_collected_b fee_amount with
      | some rb, some ra, some fb =>
        .ok ({ pool with reserve_a := ra, reserve_b := rb, fee_collected_b := fb },
             amount_out)
      | _, _, _ => .error .arithmeticFault

/-- The pool-record transition of `process_swap` on the regular two-token
path (src/src/lib.rs:1607-1740); the output amount itself leaves through
the custody adapter and is not part of the record. -/
def process_swap (pool : Pool) (amount_in : Nat) (direction_a_to_b : Bool) :
    Except PErr Pool :=
  match swap_step pool amount_in direction_a_to_b with
  | .error e => .error e
  | .ok (pool', _) => .ok pool'

/-- The ratio-preserving deposit pair of `process_add_liquidity`
(src/src/lib.rs:1070-1084): if both reserves are positive, cap one side so
the deposit matches the pool ratio; otherwise take the offered amounts. -/
def add_liquidity_final_amounts (pool : Pool) (amount_a amount_b : Nat) :
    Except PErr (Nat × Nat) :=
  if pool.reserve_a > 0 ∧ pool.reserve_b > 0 then
    match checked_mul_u128 amount_a pool.reserve_b with
    | none => .error .arithmeticFault
    | some t =>
      match checked_div t pool.reserve_a with
      | none => .error .arithmeticFault
      | some q =>
        let required_b := cast_u64 q
        if required_b ≤ amount_b then .ok (amount_a, required_b)
        else
          match checked_mul_u128 amount_b pool.reserve_a with
          | none => .error .arithmeticFault
          | some t' =>
            match checked_div t' pool.reserve_b with
            | none => .error .arithmeticFault
            | some q' => .ok (cast_u64 q', amount_b)
  else .ok (amount_a, amount_b)

/-- The pool-record transition of `process_add_liquidity`
(src/src/lib.rs:1065-1157): compute the ratio-preserving pair, mint
`isqrt(final_a * final_b)` shares on a first deposit and
`final_a * supply / reserve_a` otherwise, and add the final amounts and
minted shares to the record (excess offered amounts are refunded
externally and never enter the record). -/
def process_add_liquidity (pool : Pool) (amount_a amount_b : Nat) :
    Except PErr Pool :=
  match add_liquidity_final_amounts pool amount_a amount_b with
  | .error e => .error e
  | .ok (final_amount_a, final_amount_b) =>
    let liquidityE : Except PErr Nat :=
      if pool.total_lp_supply = 0 then
        match checked_mul_u128 final_amount_a final_amount_b with
        | none => .error .arithmeticFault
        | some p => .ok (cast_u64 (integer_sqrt p))
      else
        match checked_mul_u128 final_amount_a pool.total_lp_supply with
        | none => .error .arithmeticFault
        | some t =>
          match checked_div t pool.reserve_a with
          | none => .error .arithmeticFault
          | some q => .ok (cast_u64 q)
    match liquidityE with
    | .error e => .error e
    | .ok liquidity =>
      match checked_add_u64 pool.reserve_a final_amount_a,
            checked_add_u64 pool.reserve_b final_amount_b,
            checked_add_u64 pool.total_lp_supply liquidity with
      | some ra, some rb, some supply =>
        .ok { pool with reserve_a := ra, reserve_b := rb, total_lp_supply := supply }
      | _, _, _ => .error .arithmeticFault

/-- The pool-record transition of `process_remove_liquidity` on the
regular two-token path (src/src/lib.rs:1368-1450): pay out
`lp_amount * reserve / supply` on each side (u128 mul, `checked_div` by
the share supply, `as u64` cast), then subtract the payouts from the
reserves and `lp_amount` from the share supply (checked, `.unwrap()`).
Returns the updated record together with the two payout amounts. -/
def process_remove_liquidity (pool : Pool) (lp_amount : Nat) :
    Except PErr (Pool × Nat × Nat) :=
  match checked_mul_u128 lp_amount pool.reserve_a with
  | none => .error .arithmeticFault
  | some ta =>
    match checked_div ta pool.total_lp_supply with
    | none => .error .arithmeticFault
    | some qa =>
      let amount_a := cast_u64 qa
      match checked_mul_u128 lp_amount pool.reserve_b with
      | none => .error .arithmeticFault
      | some tb =>
        match checked_div tb pool.total_lp_supply with
        | none => .error .arithmeticFault
        | some qb =>
          let amount_b := cast_u64 qb
          match checked_sub pool.reserve_a amount_a,
                checked_sub pool.reserve_b amount_b,
                checked_sub pool.total_lp_supply lp_amount with
          | some ra, some rb, some supply =>
            .ok ({ pool with reserve_a := ra, reserve_b := rb,
                             total_lp_supply := supply },
                 amount_a, amount_b)
          | _, _, _ => .error .arithmeticFault

/-- The pool-record transition of `process_collect_fees` on the regular
pool branch (src/src/lib.rs:2222-2243): the supplied treasury identity
must equal the stored `fee_treasury`, then both fee counters are reset to
zero.  The third supplied account (`_authority_info`) is never read. -/
def process_collect_fees (pool : Pool) (treasury : Nat) (_authority : Nat) :
    Except PErr Pool :=
  if pool.fee_treasury ≠ treasury then .error .invalidArgument
  else .ok { pool with fee_collected_a := 0, fee_collected_b := 0 }

/-- The pool-record transition of `process_withdraw_fees` on the regular
pool branch (src/src/lib.rs:2296-2381): treasury must match the stored
`fee_treasury`, the authority must equal the treasury, each requested
amount must not exceed its accrued counter (else `InsufficientFunds`),
then both counters are decremented (`checked_sub().unwrap()`). -/
def process_withdraw_fees (pool : Pool) (treasury authority amount_a amount_b : Nat) :
    Except PErr Pool :=
  if pool.fee_treasury ≠ treasury then .error .invalidArgument
  else if authority ≠ treasury then .error .invalidArgument
  else if amount_a > pool.fee_collected_a ∨ amount_b > pool.fee_collected_b then
    .error .insufficientFunds
  else
    match checked_sub pool.fee_collected_a amount_a,
          checked_sub pool.fee_collected_b amount_b with
    | some fa, some fb => .ok { pool with fee_collected_a := fa, fee_collected_b := fb }
    | _, _ => .error .arithmeticFault

/-- The pool-record transition of `process_set_fee_treasury` on the
regular pool branch (src/src/lib.rs:2495-2507): unconditionally overwrite
`fee_treasury` (no prior-authority check; `_authority_info` unused). -/
def process_set_fee_treasury (pool : Pool) (treasury : Nat) (_authority : Nat) :
    Except PErr Pool :=
  .ok { pool with fee_treasury := treasury }

/-- Direction inference of one hop of `process_multihop_swap_with_path`
(src/src/lib.rs:2026-2032): the hop's pool must store exactly the adjacent
path pair, in either order. -/
def hop_direction (pool : Pool) (input_token output_token : Nat) : Except PErr Bool :=
  if pool.token_a = input_token ∧ pool.token_b = output_token then .ok true
  else if pool.token_b = input_token ∧ pool.token_a = output_token then .ok false
  else .error .invalidArgument

/-- The hop loop of `process_multihop_swap_with_path`
(src/src/lib.rs:2006-2149): consume one pool record per adjacent path
pair, infer the direction from the path, and apply the same pool update
as a single-hop swap (the in-loop code at lines 2042-2144 duplicates the
`process_swap` update verbatim), feeding each hop's output forward.
Running out of pool records is `NotEnoughAccountKeys` (the per-hop
account-count check at line 2008).  Returns the final amount and the pool
records (updated for executed hops, untouched past the path's end). -/
def run_hops (pools : List Pool) (amount : Nat) (path : List Nat) :
    Except PErr (Nat × List Pool) :=
  match path with
  | input_token :: output_token :: rest =>
    match pools with
    | [] => .error .notEnoughAccountKeys
    | pool :: pools' =>
      match hop_direction pool input_token output_token with
      | .error e => .error e
      | .ok direction_a_to_b =>
        match swap_step pool amount direction_a_to_b with
        | .error e => .error e
        | .ok (pool_updated, amount_out) =>
          match run_hops pools' amount_out (output_token :: rest) with
          | .error e => .error e
          | .ok (final_amount, rest_pools) =>
            .ok (final_amount, pool_updated :: rest_pools)
  | _ => .ok (amount, pools)

/-- `process_multihop_swap_with_path` (src/src/lib.rs:1977-2157) at the
pool-record level: a path shorter than two identities is
`InvalidArgument`; the hops run sequentially; finally the output must
reach `minimum_amount_out`, else the whole operation is
`InsufficientFunds` (and the host rolls back every hop). -/
def process_multihop_swap_with_path (pools : List Pool)
    (amount_in minimum_amount_out : Nat) (token_path : List Nat) :
    Except PErr (Nat × List Pool) :=
  if token_path.length < 2 then .error .invalidArgument
  else
    match run_hops pools amount_in token_path with
    | .error e => .error e
    | .ok (final_amount, pools') =>
      if final_amount < minimum_amount_out then .error .insufficientFunds
      else .ok (final_amount, pools')

/-- Modelled from the spec (§4.4, §8): the strict left-to-right
composition of per-hop `quote` calls along the path, each hop's output fed
as the next hop's input, with the same direction validation against the
stored identities but none of the record bookkeeping.  This is the
spec-side reference against which the router is compared. -/
def quote_composition (pools : List Pool) (amount : Nat) (path : List Nat) :
    Except PErr Nat :=
  match path with
  | input_token :: output_token :: rest =>
    match pools with
    | [] => .error .notEnoughAccountKeys
    | pool :: pools' =>
      match hop_direction pool input_token output_token with
      | .error e => .error e
      | .ok direction_a_to_b =>
        let reserve_in := if direction_a_to_b then pool.reserve_a else pool.reserve_b
        let reserve_out := if direction_a_to_b then pool.reserve_b else pool.reserve_a
        match calculate_swap_output amount reserve_in reserve_out with
        | .error e => .error e
        | .ok amount_out => quote_composition pools' amount_out (output_token :: rest)
  | _ => .ok amount

/-- Field bounds every pool record persisted by the program satisfies
(all counters are `u64` on the wire). -/
def pool_wf (p : Pool) : Prop :=
  p.reserve_a < U64_SIZE ∧ p.reserve_b < U64_SIZE ∧ p.total_lp_supply < U64_SIZE ∧
  p.fee_collected_a < U64_SIZE ∧ p.fee_collected_b < U64_SIZE

/-- Pool invariant 1 of the spec (§3): a pool is either
uninitialized-empty or fully funded. -/
def pool_inv (p : Pool) : Prop :=
  p.reserve_a = 0 ↔ p.total_lp_supply = 0

/- ### Arithmetic helper lemmas -/

lemma cast_u64_eq {a : Nat} (h : a < U64_SIZE) : cast_u64 a = a :=
  Nat.mod_eq_of_lt h

lemma fee_amount_eq {x : Nat} (h : x < U64_SIZE) :
    cast_u64 (wrap_mul_u128 x 3 / 1000) = x * 3 / 1000 := by
  have h3 : x * 3 < U128_SIZE := by
    unfold U64_SIZE at h
    unfold U128_SIZE
    omega
  have hw : wrap_mul_u128 x 3 = x * 3 := Nat.mod_eq_of_lt h3
  rw [hw]
  have hdiv : x * 3 / 1000 ≤ x := by omega
  exact cast_u64_eq (lt_of_le_of_lt hdiv h)

/- ### Newton integer square root: correctness -/

lemma sqrt_le_newton_step (n x : Nat) (hx : 1 ≤ x) :
    Nat.sqrt n ≤ (x + n / x) / 2 := by
  rw [Nat.le_div_iff_mul_le (by norm_num : 0 < 2)]
  by_contra h
  push_neg at h
  have hq : n < x * (n / x + 1) := Nat.lt_mul_div_succ n hx
  have hs : Nat.sqrt n * Nat.sqrt n ≤ n := Nat.sqrt_le n
  zify at h hq hs hx
  nlinarith [sq_nonneg ((Nat.sqrt n : Int) - x)]

lemma newton_fixed_le_sqrt (n x : Nat) (h : x ≤ (x + n / x) / 2) :
    x ≤ Nat.sqrt n := by
  rw [Nat.le_div_iff_mul_le (by norm_num : 0 < 2)] at h
  have hxq : x ≤ n / x := by omega
  have hxx : x * x ≤ n := by
    calc x * x ≤ n / x * x := Nat.mul_le_mul_right x hxq
    _ ≤ n := Nat.div_mul_le_self n x
  exact Nat.le_sqrt.2 hxx

lemma isqrt_iter_eq (n : Nat) (hn : 1 ≤ n) :
    ∀ fuel x, x ≤ fuel → 1 ≤ x → Nat.sqrt n ≤ x →
      isqrt_iter n fuel x ((x + n / x) / 2) = Nat.sqrt n := by
  intro fuel
  induction fuel with
  | zero => intro x hxf hx1 _; omega
  | succ fuel ih =>
    intro x hxf hx1 hsx
    rw [isqrt_iter]
    split
    · next hlt =>
      exact ih ((x + n / x) / 2) (by omega)
        (le_trans (Nat.sqrt_pos.2 hn) (sqrt_le_newton_step n x hx1))
        (sqrt_le_newton_step n x hx1)
    · next hge =>
      exact le_antisymm (newton_fixed_le_sqrt n x (by omega)) hsx

lemma integer_sqrt_eq_sqrt (n : Nat) : integer_sqrt n = Nat.sqrt n := by
  unfold integer_sqrt
  split
  · next h =>
    have h01 : n = 0 ∨ n = 1 := by omega
    rcases h01 with rfl | rfl <;> simp
  · next h =>
    have hdiv : (n + 1) / 2 = (n + n / n) / 2 := by
      rw [Nat.div_self (by omega : 0 < n)]
    rw [hdiv]
    exact isqrt_iter_eq n (by omega) n n le_rfl (by omega) (Nat.sqrt_le_self n)

/- ### Swap pricing: characterization and bounds -/

lemma quote_ok (x rin rout : Nat) (hx : 0 < x) (hrin : 0 < rin) (hrout : 0 < rout)
    (hx64 : x < U64_SIZE) (hrin64 : rin < U64_SIZE) (hrout64 : rout < U64_SIZE)
    (hovf : x * 997 * rout < U128_SIZE) :
    calculate_swap_output x rin rout =
      .ok (x * 997 * rout / (rin * 1000 + x * 997)) := by
  have h0 : ¬ (x = 0 ∨ rin = 0 ∨ rout = 0) := by omega
  have h1 : x * 997 < U128_SIZE := by
    unfold U64_SIZE at hx64; unfold U128_SIZE; omega
  have h2 : rin * 1000 < U128_SIZE := by
    unfold U64_SIZE at hrin64; unfold U128_SIZE; omega
  have h3 : rin * 1000 + x * 997 < U128_SIZE := by
    unfold U64_SIZE at hx64 hrin64; unfold U128_SIZE; omega
  have h4 : ¬ (rin * 1000 + x * 997 = 0) := by positivity
  have hqlt : x * 997 * rout / (rin * 1000 + x * 997) < rout := by
    rw [Nat.div_lt_iff_lt_mul (by positivity)]
    calc x * 997 * rout = rout * (x * 997) := by ring
    _ < rout * (rin * 1000 + x * 997) :=
        mul_lt_mul_of_pos_left (by omega) hrout
  simp only [calculate_swap_output, checked_mul_u128, checked_add_u128,
    h0, h1, h2, h3, h4, hovf, if_true, if_false, ite_true, ite_false]
  rw [cast_u64_eq (lt_trans hqlt hrout64)]

lemma quote_spec (x rin rout : Nat) :
    calculate_swap_output x rin rout =
      if x = 0 ∨ rin = 0 ∨ rout = 0 then .error .invalidArgument
      else if U128_SIZE ≤ x * 997 then .error .invalidArgument
      else if U128_SIZE ≤ x * 997 * rout then .error .invalidArgument
      else if U128_SIZE ≤ rin * 1000 then .error .invalidArgument
      else if U128_SIZE ≤ rin * 1000 + x * 997 then .error .invalidArgument
      else .ok (cast_u64 (x * 997 * rout / (rin * 1000 + x * 997))) := by
  by_cases h0 : x = 0 ∨ rin = 0 ∨ rout = 0
  · simp [calculate_swap_output, h0]
  · by_cases h1 : U128_SIZE ≤ x * 997
    · simp [calculate_swap_output, checked_mul_u128, h0, h1, Nat.not_lt.2 h1]
    · by_cases h2 : U128_SIZE ≤ x * 997 * rout
      · simp [calculate_swap_output, checked_mul_u128, h0, h1, h2,
          Nat.not_le.1 h1, Nat.not_lt.2 h2]
      · by_cases h3 : U128_SIZE ≤ rin * 1000
        · simp [calculate_swap_output, checked_mul_u128, h0, h1, h2, h3,
            Nat.not_le.1 h1, Nat.not_le.1 h2, Nat.not_lt.2 h3]
        · by_cases h4 : U128_SIZE ≤ rin * 1000 + x * 997
          · simp [calculate_swap_output, checked_mul_u128, checked_add_u128,
              h0, h1, h2, h3, h4, Nat.not_le.1 h1, Nat.not_le.1 h2,
              Nat.not_le.1 h3, Nat.not_lt.2 h4]
          · have h5 : ¬ (rin * 1000 + x * 997 = 0) := by omega
            simp [calculate_swap_output, checked_mul_u128, checked_add_u128,
              h0, h1, h2, h3, h4, h5, Nat.not_le.1 h1, Nat.not_le.1 h2,
              Nat.not_le.1 h3, Nat.not_le.1 h4]

lemma quote_ok_inv {x rin rout out : Nat}
    (h : calculate_swap_output x rin rout = .ok out) :
    0 < x ∧ 0 < rin ∧ 0 < rout ∧ x * 997 * rout < U128_SIZE ∧
      out = cast_u64 (x * 997 * rout / (rin * 1000 + x * 997)) := by
  rw [quote_spec] at h
  split_ifs at h with h0 h1 h2 h3 h4
  refine ⟨by omega, by omega, by omega, by omega, ?_⟩
  exact (Except.ok.injEq _ _ ▸ h).symm

lemma quote_ok_bounds {x rin rout out : Nat} (hrin : 0 < rin)
    (h : calculate_swap_output x rin rout = .ok out) :
    out < rout ∧ (rin + x) * out ≤ x * rout := by
  obtain ⟨hx, _, hrout, hovf, hout⟩ := quote_ok_inv h
  set N := x * 997 * rout with hN
  set D := rin * 1000 + x * 997 with hD
  have hDpos : 0 < D := by positivity
  have hqlt : N / D < rout := by
    rw [Nat.div_lt_iff_lt_mul hDpos]
    calc N = rout * (x * 997) := by rw [hN]; ring
    _ < rout * D := mul_lt_mul_of_pos_left (by omega) hrout
  have hout_le : out ≤ N / D := by
    rw [hout]; exact Nat.mod_le _ _
  constructor
  · exact lt_of_le_of_lt hout_le hqlt
  · have k1 : out * D ≤ N := by
      calc out * D ≤ N / D * D := Nat.mul_le_mul_right D hout_le
      _ ≤ N := Nat.div_mul_le_self N D
    have k2 : (rin + x) * (out * D) ≤ (rin + x) * N :=
      Nat.mul_le_mul_left _ k1
    have k3 : (rin + x) * N ≤ x * rout * D := by
      calc (rin + x) * N = (997 * (rin + x)) * (x * rout) := by rw [hN]; ring
      _ ≤ D * (x * rout) := Nat.mul_le_mul_right _ (by omega)
      _ = x * rout * D := by ring
    have k4 : (rin + x) * out * D ≤ x * rout * D := by
      calc (rin + x) * out * D = (rin + x) * (out * D) := by ring
      _ ≤ (rin + x) * N := k2
      _ ≤ x * rout * D := k3
    exact Nat.le_of_mul_le_mul_right k4 hDpos


/- ### Swap step: inversion -/

lemma checked_add_u64_some {a b c : Nat} (h : checked_add_u64 a b = some c) :
    c = a + b ∧ a + b < U64_SIZE := by
  unfold checked_add_u64 at h
  split_ifs at h with h1
  · exact ⟨(Option.some.injEq _ _ ▸ h).symm, h1⟩

lemma checked_sub_some {a b c : Nat} (h : checked_sub a b = some c) :
    c = a - b ∧ b ≤ a := by
  unfold checked_sub at h
  split_ifs at h with h1
  · exact ⟨(Option.some.injEq _ _ ▸ h).symm, h1⟩

lemma swap_step_ok_inv {pool pool' : Pool} {x out : Nat} {d : Bool}
    (h : swap_step pool x d = .ok (pool', out)) :
    calculate_swap_output x (if d then pool.reserve_a else pool.reserve_b)
        (if d then pool.reserve_b else pool.reserve_a) = .ok out ∧
    (if d then
       pool' = { pool with
         reserve_a := pool.reserve_a + x,
         reserve_b := pool.reserve_b - out,
         fee_collected_a := pool.fee_collected_a + cast_u64 (wrap_mul_u128 x 3 / 1000) } ∧
       pool.reserve_a + x < U64_SIZE ∧ out ≤ pool.reserve_b ∧
       pool.fee_collected_a + cast_u64 (wrap_mul_u128 x 3 / 1000) < U64_SIZE
     else
       pool' = { pool with
         reserve_b := pool.reserve_b + x,
         reserve_a := pool.reserve_a - out,
         fee_collected_b := pool.fee_collected_b + cast_u64 (wrap_mul_u128 x 3 / 1000) } ∧
       pool.reserve_b + x < U64_SIZE ∧ out ≤ pool.reserve_a ∧
       pool.fee_collected_b + cast_u64 (wrap_mul_u128 x 3 / 1000) < U64_SIZE) := by
  cases d
  · simp only [swap_step, Bool.false_eq_true, if_false, ite_false] at h ⊢
    cases hq : calculate_swap_output x pool.reserve_b pool.reserve_a with
    | error e => simp [hq] at h
    | ok out0 =>
      simp only [hq] at h
      cases h1 : checked_add_u64 pool.reserve_b x with
      | none => simp [h1] at h
      | some rb =>
        cases h2 : checked_sub pool.reserve_a out0 with
        | none => simp [h1, h2] at h
        | some ra =>
          cases h3 : checked_add_u64 pool.fee_collected_b
              (cast_u64 (wrap_mul_u128 x 3 / 1000)) with
          | none => simp [h1, h2, h3] at h
          | some fb =>
            simp only [h1, h2, h3, Except.ok.injEq, Prod.mk.injEq] at h
            obtain ⟨hp, ho⟩ := h
            subst ho
            obtain ⟨hrb, hrb64⟩ := checked_add_u64_some h1
            obtain ⟨hra, hle⟩ := checked_sub_some h2
            obtain ⟨hfb, hfb64⟩ := checked_add_u64_some h3
            subst hrb hra hfb
            exact ⟨rfl, hp.symm, hrb64, hle, hfb64⟩
  · simp only [swap_step, if_true, ite_true] at h ⊢
    cases hq : calculate_swap_output x pool.reserve_a pool.reserve_b with
    | error e => simp [hq] at h
    | ok out0 =>
      simp only [hq] at h
      cases h1 : checked_add_u64 pool.reserve_a x with
      | none => simp [h1] at h
      | some ra =>
        cases h2 : checked_sub pool.reserve_b out0 with
        | none => simp [h1, h2] at h
        | some rb =>
          cases h3 : checked_add_u64 pool.fee_collected_a
              (cast_u64 (wrap_mul_u128 x 3 / 1000)) with
          | none => simp [h1, h2, h3] at h
          | some fa =>
            simp only [h1, h2, h3, Except.ok.injEq, Prod.mk.injEq] at h
            obtain ⟨hp, ho⟩ := h
            subst ho
            obtain ⟨hra, hra64⟩ := checked_add_u64_some h1
            obtain ⟨hrb, hle⟩ := checked_sub_some h2
            obtain ⟨hfa, hfa64⟩ := checked_add_u64_some h3
            subst hra hrb hfa
            exact ⟨rfl, hp.symm, hra64, hle, hfa64⟩


/- ## Claim theorems -/

/-- C1: for all non-zero u64 inputs whose u128 numerator does not
overflow, the swap pricing function returns exactly
floor((amount_in*997*reserve_out) / (reserve_in*1000 + amount_in*997)),
computed in 128-bit intermediates. -/
theorem C1_swap_pricing_formula (amount_in reserve_in reserve_out : Nat)
    (h_in : 0 < amount_in) (h_rin : 0 < reserve_in) (h_rout : 0 < reserve_out)
    (h64_in : amount_in < U64_SIZE) (h64_rin : reserve_in < U64_SIZE)
    (h64_rout : reserve_out < U64_SIZE)
    (h_noovf : amount_in * 997 * reserve_out < U128_SIZE) :
    calculate_swap_output amount_in reserve_in reserve_out =
      .ok (amount_in * 997 * reserve_out / (reserve_in * 1000 + amount_in * 997)) :=
  quote_ok _ _ _ h_in h_rin h_rout h64_in h64_rin h64_rout h_noovf

/-- C1 witness: quote(100, 1000, 2000) = 181. -/
theorem C1_swap_pricing_formula_witness :
    calculate_swap_output 100 1000 2000 = .ok 181 := by
  have h := C1_swap_pricing_formula 100 1000 2000 (by norm_num) (by norm_num)
    (by norm_num) (by norm_num [U64_SIZE]) (by norm_num [U64_SIZE])
    (by norm_num [U64_SIZE]) (by norm_num [U128_SIZE])
  rw [h]

/-- C3 counterexample: with amount_in = reserve_out = 2^64-1 and
reserve_in = 1 — all three non-zero — the pricing function still fails
with InvalidArgument (the u128 numerator multiply overflows), refuting
the claimed "fails iff an input is zero". -/
theorem C3_counterexample :
    (2 ^ 64 - 1 ≠ 0 ∧ 1 ≠ 0) ∧
    calculate_swap_output (2 ^ 64 - 1) 1 (2 ^ 64 - 1) = .error .invalidArgument :=
  ⟨⟨by norm_num, by norm_num⟩, rfl⟩

/-- C3 (amended): for u64 inputs, the pricing function fails — always with
InvalidArgument — iff an input is zero or the u128 numerator
amount_in*997*reserve_out overflows 2^128; for all other inputs it
succeeds with the constant-product output. -/
theorem C3_quote_error_characterization (amount_in reserve_in reserve_out : Nat)
    (h64_in : amount_in < U64_SIZE) (h64_rin : reserve_in < U64_SIZE)
    (h64_rout : reserve_out < U64_SIZE) :
    (calculate_swap_output amount_in reserve_in reserve_out =
        .error .invalidArgument ↔
      (amount_in = 0 ∨ reserve_in = 0 ∨ reserve_out = 0 ∨
        U128_SIZE ≤ amount_in * 997 * reserve_out)) ∧
    (¬ (amount_in = 0 ∨ reserve_in = 0 ∨ reserve_out = 0 ∨
        U128_SIZE ≤ amount_in * 997 * reserve_out) →
      calculate_swap_output amount_in reserve_in reserve_out =
        .ok (amount_in * 997 * reserve_out /
              (reserve_in * 1000 + amount_in * 997))) := by
  have hb1 : amount_in * 997 < U128_SIZE := by
    unfold U64_SIZE at h64_in; unfold U128_SIZE; omega
  have hb3 : reserve_in * 1000 < U128_SIZE := by
    unfold U64_SIZE at h64_rin; unfold U128_SIZE; omega
  have hb4 : reserve_in * 1000 + amount_in * 997 < U128_SIZE := by
    unfold U64_SIZE at h64_in h64_rin; unfold U128_SIZE; omega
  constructor
  · rw [quote_spec]
    split_ifs with h0 h1 h2 h3 h4
    · exact iff_of_true rfl (by tauto)
    · exact absurd h1 (by omega)
    · exact iff_of_true rfl (by tauto)
    · exact absurd h3 (by omega)
    · exact absurd h4 (by omega)
    · constructor
      · intro hcon; exact absurd hcon (by simp)
      · intro hrhs; exfalso; rcases hrhs with h | h | h | h
        · exact h0 (by omega)
        · exact h0 (by omega)
        · exact h0 (by omega)
        · exact h2 h
  · intro hok
    push_neg at hok
    exact quote_ok _ _ _ (by omega) (by omega) (by omega)
      h64_in h64_rin h64_rout (by omega)

/-- C3 witness: at (100, 1000, 2000) — no zero input, no overflow — the
error characterization yields success with the constant-product output. -/
theorem C3_quote_error_characterization_witness :
    calculate_swap_output 100 1000 2000 = .ok (100 * 997 * 2000 / (1000 * 1000 + 100 * 997)) :=
  (C3_quote_error_characterization 100 1000 2000
      (by norm_num [U64_SIZE]) (by norm_num [U64_SIZE]) (by norm_num [U64_SIZE])).2
    (by norm_num [U128_SIZE])

/-- C6: InitPool's first deposit mints isqrt(amount_a * amount_b) shares;
the Newton-iteration integer square root is exactly floor(sqrt(n)) —
exact for perfect squares, floored otherwise — and total, on every
product of two u64 values; a first deposit of (1000, 2000) mints
isqrt(2_000_000) = 1414 shares. -/
theorem C6_first_deposit_isqrt (token_a token_b bump amount_a amount_b : Nat)
    (h64_a : amount_a < U64_SIZE) (h64_b : amount_b < U64_SIZE) :
    ((process_init_pool token_a token_b bump amount_a amount_b).map
        Pool.total_lp_supply = .ok (integer_sqrt (amount_a * amount_b))) ∧
    (∀ n, n ≤ (U64_SIZE - 1) ^ 2 →
      integer_sqrt n = Nat.sqrt n ∧
      integer_sqrt n * integer_sqrt n ≤ n ∧
      n < (integer_sqrt n + 1) * (integer_sqrt n + 1)) ∧
    (process_init_pool 1 2 255 1000 2000).map Pool.total_lp_supply = .ok 1414 := by
  refine ⟨?_, ?_, rfl⟩
  · have hprod : amount_a * amount_b < U128_SIZE := by
      have ha : amount_a ≤ U64_SIZE - 1 := by omega
      have hb : amount_b ≤ U64_SIZE - 1 := by omega
      calc amount_a * amount_b ≤ (U64_SIZE - 1) * (U64_SIZE - 1) :=
            Nat.mul_le_mul ha hb
      _ < U128_SIZE := by norm_num [U64_SIZE, U128_SIZE]
    have hsq : integer_sqrt (amount_a * amount_b) < U64_SIZE := by
      rw [integer_sqrt_eq_sqrt]
      have h1 : Nat.sqrt (amount_a * amount_b) ≤ Nat.sqrt ((U64_SIZE - 1) * (U64_SIZE - 1)) :=
        Nat.sqrt_le_sqrt (Nat.mul_le_mul (by omega) (by omega))
      rw [Nat.sqrt_eq (U64_SIZE - 1)] at h1
      have : 0 < U64_SIZE := by norm_num [U64_SIZE]
      omega
    simp only [process_init_pool, checked_mul_u128, hprod, if_true, ite_true,
      Except.map, cast_u64_eq hsq]
  · intro n _
    refine ⟨integer_sqrt_eq_sqrt n, ?_, ?_⟩
    · rw [integer_sqrt_eq_sqrt]; exact Nat.sqrt_le n
    · rw [integer_sqrt_eq_sqrt]
      simpa [Nat.succ_eq_add_one] using Nat.lt_succ_sqrt n

/-- C6 witness: concrete first deposit (1000, 2000). -/
theorem C6_first_deposit_isqrt_witness :
    (process_init_pool 1 2 255 1000 2000).map Pool.total_lp_supply
      = .ok (integer_sqrt (1000 * 2000)) :=
  (C6_first_deposit_isqrt 1 2 255 1000 2000
    (by norm_num [U64_SIZE]) (by norm_num [U64_SIZE])).1

/-- C8: WithdrawFees (treasury and authority checks passing) fails with
InsufficientFunds — committing no record change — when either requested
amount exceeds its accrued counter, and otherwise decrements exactly the
two fee counters, leaving reserves, share supply, identities and treasury
unchanged. -/
theorem C8_withdraw_fees_bounds (pool : Pool) (treasury authority amount_a amount_b : Nat)
    (htr : treasury = pool.fee_treasury) (hauth : authority = treasury) :
    (pool.fee_collected_a < amount_a ∨ pool.fee_collected_b < amount_b →
      process_withdraw_fees pool treasury authority amount_a amount_b =
        .error .insufficientFunds) ∧
    (amount_a ≤ pool.fee_collected_a → amount_b ≤ pool.fee_collected_b →
      process_withdraw_fees pool treasury authority amount_a amount_b =
        .ok { pool with fee_collected_a := pool.fee_collected_a - amount_a,
                        fee_collected_b := pool.fee_collected_b - amount_b }) := by
  unfold process_withdraw_fees
  rw [if_neg (by simp [htr]), if_neg (by simp [hauth])]
  constructor
  · intro hover
    rw [if_pos (by omega)]
  · intro ha hb
    rw [if_neg (by omega)]
    unfold checked_sub
    rw [if_pos ha, if_pos hb]

/-- C8 witness: a pool with accrued fees (5, 7): withdrawing (3, 7)
succeeds and decrements exactly the two counters. -/
theorem C8_withdraw_fees_bounds_witness :
    process_withdraw_fees ⟨1, 2, 0, 100, 200, 50, 5, 7, 9⟩ 9 9 3 7 =
      .ok ⟨1, 2, 0, 100, 200, 50, 2, 0, 9⟩ :=
  (C8_withdraw_fees_bounds ⟨1, 2, 0, 100, 200, 50, 5, 7, 9⟩ 9 9 3 7 rfl rfl).2
    (by norm_num) (by norm_num)

/-- C10: CollectFees never reads the supplied authority account: two runs
differing only in the authority have identical outcome and post-state;
and a successful run resets both fee counters to zero leaving every other
field unchanged. -/
theorem C10_collect_fees_authority_independent (pool : Pool)
    (treasury auth1 auth2 : Nat) :
    (process_collect_fees pool treasury auth1 =
      process_collect_fees pool treasury auth2) ∧
    (treasury = pool.fee_treasury →
      process_collect_fees pool treasury auth1 =
        .ok { pool with fee_collected_a := 0, fee_collected_b := 0 }) := by
  refine ⟨rfl, ?_⟩
  intro h
  unfold process_collect_fees
  rw [if_neg (by simp [h])]

/-- C10 witness: a concrete pool with matching treasury, two different
authorities. -/
theorem C10_collect_fees_authority_independent_witness :
    process_collect_fees ⟨1, 2, 0, 10, 20, 5, 3, 4, 7⟩ 7 1 =
      .ok ⟨1, 2, 0, 10, 20, 5, 0, 0, 7⟩ :=
  (C10_collect_fees_authority_independent ⟨1, 2, 0, 10, 20, 5, 3, 4, 7⟩ 7 1 2).2 rfl


lemma process_swap_ok_inv {pool pool' : Pool} {x : Nat} {d : Bool}
    (h : process_swap pool x d = .ok pool') :
    ∃ out, swap_step pool x d = .ok (pool', out) := by
  unfold process_swap at h
  cases hs : swap_step pool x d with
  | error e => simp [hs] at h
  | ok po =>
    obtain ⟨p1, o⟩ := po
    simp only [hs, Except.ok.injEq] at h
    exact ⟨o, by rw [h]⟩

/-- C2: across every successful single-hop Swap from positive reserves
with positive input, the invariant constant reserve_a * reserve_b does
not decrease. -/
theorem C2_constant_product_nondecreasing (pool pool' : Pool)
    (amount_in : Nat) (d : Bool)
    (hra : 0 < pool.reserve_a) (hrb : 0 < pool.reserve_b) (_hx : 0 < amount_in)
    (h : process_swap pool amount_in d = .ok pool') :
    pool.reserve_a * pool.reserve_b ≤ pool'.reserve_a * pool'.reserve_b := by
  obtain ⟨out, hstep⟩ := process_swap_ok_inv h
  obtain ⟨hq, hupd⟩ := swap_step_ok_inv hstep
  cases d
  · simp only [Bool.false_eq_true, if_false, ite_false] at hq hupd
    obtain ⟨hp, _, hle, _⟩ := hupd
    subst hp
    obtain ⟨hlt, hkey⟩ := quote_ok_bounds hrb hq
    show pool.reserve_a * pool.reserve_b ≤
      (pool.reserve_a - out) * (pool.reserve_b + amount_in)
    have h1 : (pool.reserve_b + amount_in) * (pool.reserve_a - out)
        + (pool.reserve_b + amount_in) * out
        = pool.reserve_b * pool.reserve_a + amount_in * pool.reserve_a := by
      rw [← Nat.mul_add, Nat.sub_add_cancel (le_of_lt hlt)]
      ring
    have h2 : pool.reserve_b * pool.reserve_a + (pool.reserve_b + amount_in) * out
        ≤ pool.reserve_b * pool.reserve_a + amount_in * pool.reserve_a :=
      Nat.add_le_add_left hkey _
    rw [← h1] at h2
    have h3 := Nat.le_of_add_le_add_right h2
    calc pool.reserve_a * pool.reserve_b
        = pool.reserve_b * pool.reserve_a := Nat.mul_comm _ _
    _ ≤ (pool.reserve_b + amount_in) * (pool.reserve_a - out) := h3
    _ = (pool.reserve_a - out) * (pool.reserve_b + amount_in) := Nat.mul_comm _ _
  · simp only [if_true, ite_true] at hq hupd
    obtain ⟨hp, _, hle, _⟩ := hupd
    subst hp
    obtain ⟨hlt, hkey⟩ := quote_ok_bounds hra hq
    show pool.reserve_a * pool.reserve_b ≤
      (pool.reserve_a + amount_in) * (pool.reserve_b - out)
    have h1 : (pool.reserve_a + amount_in) * (pool.reserve_b - out)
        + (pool.reserve_a + amount_in) * out
        = pool.reserve_a * pool.reserve_b + amount_in * pool.reserve_b := by
      rw [← Nat.mul_add, Nat.sub_add_cancel (le_of_lt hlt)]
      ring
    have h2 : pool.reserve_a * pool.reserve_b + (pool.reserve_a + amount_in) * out
        ≤ pool.reserve_a * pool.reserve_b + amount_in * pool.reserve_b :=
      Nat.add_le_add_left hkey _
    rw [← h1] at h2
    exact Nat.le_of_add_le_add_right h2

/-- C2 witness: the (1000, 2000) pool swapping 100 a-to-b: product grows
from 2_000_000 to 1100 * 1819 = 2_000_900. -/
theorem C2_constant_product_nondecreasing_witness :
    (1000 : Nat) * 2000 ≤ 1100 * 1819 :=
  C2_constant_product_nondecreasing
    ⟨1, 2, 0, 1000, 2000, 1414, 0, 0, 0⟩ ⟨1, 2, 0, 1100, 1819, 1414, 0, 0, 0⟩
    100 true (by norm_num) (by norm_num) (by norm_num) rfl


/-- C4: every successful single-hop Swap adds amount_in to the input-side
reserve, subtracts the quoted output from the output-side reserve, accrues
exactly floor(amount_in*3/1000) on the input side's fee counter, and
leaves both token identities, the share supply, the output side's fee
counter and the treasury unchanged. -/
theorem C4_swap_state_update (pool pool' : Pool) (amount_in : Nat) (d : Bool)
    (out : Nat) (h64 : amount_in < U64_SIZE)
    (hq : calculate_swap_output amount_in
            (if d then pool.reserve_a else pool.reserve_b)
            (if d then pool.reserve_b else pool.reserve_a) = .ok out)
    (h : process_swap pool amount_in d = .ok pool') :
    (if d then
        pool'.reserve_a = pool.reserve_a + amount_in ∧
        pool'.reserve_b = pool.reserve_b - out ∧
        pool'.fee_collected_a = pool.fee_collected_a + amount_in * 3 / 1000 ∧
        pool'.fee_collected_b = pool.fee_collected_b
      else
        pool'.reserve_b = pool.reserve_b + amount_in ∧
        pool'.reserve_a = pool.reserve_a - out ∧
        pool'.fee_collected_b = pool.fee_collected_b + amount_in * 3 / 1000 ∧
        pool'.fee_collected_a = pool.fee_collected_a) ∧
    pool'.token_a = pool.token_a ∧ pool'.token_b = pool.token_b ∧
    pool'.total_lp_supply = pool.total_lp_supply ∧
    pool'.fee_treasury = pool.fee_treasury := by
  obtain ⟨out0, hstep⟩ := process_swap_ok_inv h
  obtain ⟨hq0, hupd⟩ := swap_step_ok_inv hstep
  cases d
  · simp only [Bool.false_eq_true, if_false, ite_false] at hq hq0 hupd ⊢
    rw [hq] at hq0
    obtain rfl : out = out0 := by
      exact Except.ok.injEq _ _ ▸ hq0
    obtain ⟨hp, _, _, _⟩ := hupd
    subst hp
    exact ⟨⟨rfl, rfl, by rw [fee_amount_eq h64], rfl⟩, rfl, rfl, rfl, rfl⟩
  · simp only [if_true, ite_true] at hq hq0 hupd ⊢
    rw [hq] at hq0
    obtain rfl : out = out0 := by
      exact Except.ok.injEq _ _ ▸ hq0
    obtain ⟨hp, _, _, _⟩ := hupd
    subst hp
    exact ⟨⟨rfl, rfl, by rw [fee_amount_eq h64], rfl⟩, rfl, rfl, rfl, rfl⟩

/-- C4 witness: the (1000, 2000) pool swapping 100 a-to-b: reserves become
(1100, 1819) and the input-side fee counter grows by floor(300/1000) = 0. -/
theorem C4_swap_state_update_witness :
    (100 : Nat) < U64_SIZE ∧
    calculate_swap_output 100 1000 2000 = .ok 181 ∧
    Pool.fee_collected_a ⟨1, 2, 0, 1100, 1819, 1414, 5, 6, 9⟩ =
      Pool.fee_collected_a ⟨1, 2, 0, 1000, 2000, 1414, 5, 6, 9⟩ + 100 * 3 / 1000 := by
  refine ⟨by norm_num [U64_SIZE], rfl, ?_⟩
  have h := C4_swap_state_update ⟨1, 2, 0, 1000, 2000, 1414, 5, 6, 9⟩
    ⟨1, 2, 0, 1100, 1819, 1414, 5, 6, 9⟩ 100 true 181
    (by norm_num [U64_SIZE]) rfl rfl
  exact h.1.2.2.1

/-- C5: RemoveLiquidity with 0 < supply and lp_amount <= supply pays out
floor(lp_amount * reserve / supply) on each side, decreases both reserves
by exactly those amounts and the share supply by exactly lp_amount; with
lp_amount > supply it aborts (checked_sub unwrap panic) committing no
state change. -/
theorem C5_remove_liquidity_payout (pool : Pool) (lp_amount : Nat)
    (hsupply : 0 < pool.total_lp_supply) (h64_lp : lp_amount < U64_SIZE)
    (h64_ra : pool.reserve_a < U64_SIZE) (h64_rb : pool.reserve_b < U64_SIZE) :
    (lp_amount ≤ pool.total_lp_supply →
      process_remove_liquidity pool lp_amount = .ok
        ({ pool with
             reserve_a := pool.reserve_a -
               lp_amount * pool.reserve_a / pool.total_lp_supply,
             reserve_b := pool.reserve_b -
               lp_amount * pool.reserve_b / pool.total_lp_supply,
             total_lp_supply := pool.total_lp_supply - lp_amount },
         lp_amount * pool.reserve_a / pool.total_lp_supply,
         lp_amount * pool.reserve_b / pool.total_lp_supply)) ∧
    (pool.total_lp_supply < lp_amount →
      process_remove_liquidity pool lp_amount = .error .arithmeticFault) := by
  have hA : lp_amount * pool.reserve_a < U128_SIZE := by
    calc lp_amount * pool.reserve_a ≤ (U64_SIZE - 1) * (U64_SIZE - 1) :=
          Nat.mul_le_mul (by omega) (by omega)
    _ < U128_SIZE := by norm_num [U64_SIZE, U128_SIZE]
  have hB : lp_amount * pool.reserve_b < U128_SIZE := by
    calc lp_amount * pool.reserve_b ≤ (U64_SIZE - 1) * (U64_SIZE - 1) :=
          Nat.mul_le_mul (by omega) (by omega)
    _ < U128_SIZE := by norm_num [U64_SIZE, U128_SIZE]
  have hs0 : ¬ (pool.total_lp_supply = 0) := by omega
  constructor
  · intro hle
    have hqa_le : lp_amount * pool.reserve_a / pool.total_lp_supply ≤ pool.reserve_a := by
      have h1 : lp_amount * pool.reserve_a ≤ pool.total_lp_supply * pool.reserve_a :=
        Nat.mul_le_mul_right _ hle
      have h2 := Nat.div_le_div_right (c := pool.total_lp_supply) h1
      rwa [Nat.mul_div_cancel_left _ hsupply] at h2
    have hqb_le : lp_amount * pool.reserve_b / pool.total_lp_supply ≤ pool.reserve_b := by
      have h1 : lp_amount * pool.reserve_b ≤ pool.total_lp_supply * pool.reserve_b :=
        Nat.mul_le_mul_right _ hle
      have h2 := Nat.div_le_div_right (c := pool.total_lp_supply) h1
      rwa [Nat.mul_div_cancel_left _ hsupply] at h2
    have hqa64 : lp_amount * pool.reserve_a / pool.total_lp_supply < U64_SIZE :=
      lt_of_le_of_lt hqa_le h64_ra
    have hqb64 : lp_amount * pool.reserve_b / pool.total_lp_supply < U64_SIZE :=
      lt_of_le_of_lt hqb_le h64_rb
    simp only [process_remove_liquidity, checked_mul_u128, checked_div, checked_sub,
      hA, hB, hs0, cast_u64_eq hqa64, cast_u64_eq hqb64, hqa_le, hqb_le, hle,
      if_true, if_false, ite_true, ite_false]
  · intro hgt
    have hns : ¬ (lp_amount ≤ pool.total_lp_supply) := by omega
    simp only [process_remove_liquidity, checked_mul_u128, checked_div, checked_sub,
      hA, hB, hs0, hns, if_true, if_false, ite_true, ite_false]
    split_ifs <;> rfl

/-- C5 witness: the (1000, 2000, supply 1414) pool: removing 707 shares
pays out (500, 1000); removing 1415 > 1414 aborts. -/
theorem C5_remove_liquidity_payout_witness :
    process_remove_liquidity ⟨1, 2, 0, 1000, 2000, 1414, 0, 0, 0⟩ 707 =
      .ok (⟨1, 2, 0, 1000 - 707 * 1000 / 1414, 2000 - 707 * 2000 / 1414,
            1414 - 707, 0, 0, 0⟩, 707 * 1000 / 1414, 707 * 2000 / 1414) ∧
    process_remove_liquidity ⟨1, 2, 0, 1000, 2000, 1414, 0, 0, 0⟩ 1415 =
      .error .arithmeticFault :=
  ⟨(C5_remove_liquidity_payout ⟨1, 2, 0, 1000, 2000, 1414, 0, 0, 0⟩ 707
      (by norm_num) (by norm_num [U64_SIZE]) (by norm_num [U64_SIZE])
      (by norm_num [U64_SIZE])).1 (by norm_num),
   (C5_remove_liquidity_payout ⟨1, 2, 0, 1000, 2000, 1414, 0, 0, 0⟩ 1415
      (by norm_num) (by norm_num [U64_SIZE]) (by norm_num [U64_SIZE])
      (by norm_num [U64_SIZE])).2 (by norm_num)⟩

lemma run_hops_quote :
    ∀ (path : List Nat) (pools : List Pool) (amount out : Nat) (pools' : List Pool),
      run_hops pools amount path = .ok (out, pools') →
      quote_composition pools amount path = .ok out := by
  intro path
  induction path with
  | nil =>
    intro pools amount out pools' h
    simp only [run_hops, Except.ok.injEq, Prod.mk.injEq] at h
    simp only [quote_composition, h.1]
  | cons t1 tl ih =>
    cases tl with
    | nil =>
      intro pools amount out pools' h
      simp only [run_hops, Except.ok.injEq, Prod.mk.injEq] at h
      simp only [quote_composition, h.1]
    | cons t2 rest =>
      intro pools amount out pools' h
      cases pools with
      | nil => simp [run_hops] at h
      | cons pool pools1 =>
        simp only [run_hops] at h
        cases hd : hop_direction pool t1 t2 with
        | error e => simp [hd] at h
        | ok d =>
          simp only [hd] at h
          cases hs : swap_step pool amount d with
          | error e => simp [hs] at h
          | ok po =>
            obtain ⟨pool1, amount1⟩ := po
            simp only [hs] at h
            cases hr : run_hops pools1 amount1 (t2 :: rest) with
            | error e => simp [hr] at h
            | ok fr =>
              obtain ⟨final, restp⟩ := fr
              simp only [hr, Except.ok.injEq, Prod.mk.injEq] at h
              obtain ⟨hfo, _⟩ := h
              have hq := (swap_step_ok_inv hs).1
              simp only [quote_composition, hd]
              cases d
              · simp only [Bool.false_eq_true, if_false, ite_false] at hq ⊢
                rw [hq]
                rw [hfo] at hr
                exact ih pools1 amount1 out restp hr
              · simp only [if_true, ite_true] at hq ⊢
                rw [hq]
                rw [hfo] at hr
                exact ih pools1 amount1 out restp hr

lemma run_hops_mismatch :
    ∀ (k : Nat) (path : List Nat) (pools : List Pool) (amount : Nat)
      (pool : Pool) (t_in t_out amt_k : Nat) (pools_k : List Pool),
      pools[k]? = some pool → path[k]? = some t_in → path[k + 1]? = some t_out →
      hop_direction pool t_in t_out = .error .invalidArgument →
      run_hops (pools.take k) amount (path.take (k + 1)) = .ok (amt_k, pools_k) →
      run_hops pools amount path = .error .invalidArgument := by
  intro k
  induction k with
  | zero =>
    intro path pools amount pool t_in t_out amt_k pools_k hp ht1 ht2 hd _hpre
    cases path with
    | nil => simp at ht1
    | cons s0 path1 =>
      cases path1 with
      | nil => simp at ht2
      | cons s1 rest =>
        cases pools with
        | nil => simp at hp
        | cons p0 pools1 =>
          simp only [List.getElem?_cons_zero, Option.some.injEq] at hp ht1
          simp only [List.getElem?_cons_succ, List.getElem?_cons_zero,
            Option.some.injEq] at ht2
          subst hp
          subst ht1
          subst ht2
          simp only [run_hops, hd]
  | succ k ih =>
    intro path pools amount pool t_in t_out amt_k pools_k hp ht1 ht2 hd hpre
    cases path with
    | nil => simp at ht1
    | cons s0 path1 =>
      cases pools with
      | nil => simp at hp
      | cons p0 pools1 =>
        simp only [List.getElem?_cons_succ] at hp ht1 ht2
        cases path1 with
        | nil => simp at ht1
        | cons s1 rest =>
          simp only [List.take_succ_cons, run_hops] at hpre
          cases hd0 : hop_direction p0 s0 s1 with
          | error e => simp [hd0] at hpre
          | ok d0 =>
            simp only [hd0] at hpre
            cases hs0 : swap_step p0 amount d0 with
            | error e => simp [hs0] at hpre
            | ok po =>
              obtain ⟨p0', a1⟩ := po
              simp only [hs0] at hpre
              cases hr : run_hops (pools1.take k) a1 (s1 :: rest.take k) with
              | error e => simp [hr] at hpre
              | ok fr =>
                obtain ⟨f1, f2⟩ := fr
                have hrec : run_hops pools1 a1 (s1 :: rest) = .error .invalidArgument := by
                  refine ih (s1 :: rest) pools1 a1 pool t_in t_out f1 f2 hp ht1 ht2 hd ?_
                  rw [List.take_succ_cons]
                  exact hr
                simp only [run_hops, hd0, hs0, hrec]

/-- C7: the multihop router refines per-hop quote composition: (i) a
successful MultihopSwapWithPath returns exactly the left-to-right
composition of quote over the successive hops and satisfies the slippage
floor; (ii) a hop whose pool identities do not match the adjacent path
pair (all earlier hops having executed) fails the whole operation with
InvalidArgument; (iii) a composed final amount below minimum_amount_out
fails the whole operation with InsufficientFunds. -/
theorem C7_multihop_composition :
    (∀ (pools : List Pool) (x min_out : Nat) (path : List Nat)
        (out : Nat) (pools' : List Pool),
      process_multihop_swap_with_path pools x min_out path = .ok (out, pools') →
      quote_composition pools x path = .ok out ∧ min_out ≤ out) ∧
    (∀ (pools : List Pool) (x min_out : Nat) (path : List Nat) (k : Nat)
        (pool : Pool) (t_in t_out amt_k : Nat) (pools_k : List Pool),
      2 ≤ path.length →
      pools[k]? = some pool → path[k]? = some t_in → path[k + 1]? = some t_out →
      hop_direction pool t_in t_out = .error .invalidArgument →
      run_hops (pools.take k) x (path.take (k + 1)) = .ok (amt_k, pools_k) →
      process_multihop_swap_with_path pools x min_out path =
        .error .invalidArgument) ∧
    (∀ (pools : List Pool) (x min_out : Nat) (path : List Nat)
        (out : Nat) (pools' : List Pool),
      2 ≤ path.length →
      run_hops pools x path = .ok (out, pools') → out < min_out →
      process_multihop_swap_with_path pools x min_out path =
        .error .insufficientFunds) := by
  refine ⟨?_, ?_, ?_⟩
  · intro pools x min_out path out pools' h
    unfold process_multihop_swap_with_path at h
    split_ifs at h with hlen
    cases hr : run_hops pools x path with
    | error e => simp [hr] at h
    | ok fr =>
      obtain ⟨f1, f2⟩ := fr
      simp only [hr] at h
      split_ifs at h with hmin
      simp only [Except.ok.injEq, Prod.mk.injEq] at h
      obtain ⟨rfl, rfl⟩ := h
      exact ⟨run_hops_quote path pools x f1 f2 hr, by omega⟩
  · intro pools x min_out path k pool t_in t_out amt_k pools_k hlen hp ht1 ht2 hd hpre
    unfold process_multihop_swap_with_path
    rw [if_neg (by omega)]
    rw [run_hops_mismatch k path pools x pool t_in t_out amt_k pools_k hp ht1 ht2 hd hpre]
  · intro pools x min_out path out pools' hlen hr hmin
    unfold process_multihop_swap_with_path
    rw [if_neg (by omega), hr]
    simp only [hmin, if_true, ite_true]

/-- C7 witness: a single-hop path [1, 2] against a pool storing identities
(5, 6): the router fails with InvalidArgument before the hop executes. -/
theorem C7_multihop_composition_witness :
    process_multihop_swap_with_path [⟨5, 6, 0, 1000, 2000, 0, 0, 0, 0⟩] 100 0 [1, 2] =
      .error .invalidArgument :=
  C7_multihop_composition.2.1 [⟨5, 6, 0, 1000, 2000, 0, 0, 0, 0⟩] 100 0 [1, 2] 0
    ⟨5, 6, 0, 1000, 2000, 0, 0, 0, 0⟩ 1 2 100 [] (by norm_num) rfl rfl rfl rfl rfl

lemma checked_mul_u128_some {a b c : Nat} (h : checked_mul_u128 a b = some c) :
    c = a * b ∧ a * b < U128_SIZE := by
  unfold checked_mul_u128 at h
  split_ifs at h with h1
  · exact ⟨(Option.some.injEq _ _ ▸ h).symm, h1⟩

lemma checked_div_some {a b c : Nat} (h : checked_div a b = some c) :
    c = a / b ∧ 0 < b := by
  unfold checked_div at h
  split_ifs at h with h1
  · exact ⟨(Option.some.injEq _ _ ▸ h).symm, by omega⟩

lemma remove_liquidity_ok_inv {pool : Pool} {lp : Nat} {r : Pool × Nat × Nat}
    (h : process_remove_liquidity pool lp = .ok r) :
    0 < pool.total_lp_supply ∧ lp ≤ pool.total_lp_supply ∧
    cast_u64 (lp * pool.reserve_a / pool.total_lp_supply) ≤ pool.reserve_a ∧
    cast_u64 (lp * pool.reserve_b / pool.total_lp_supply) ≤ pool.reserve_b ∧
    r = ({ pool with
            reserve_a := pool.reserve_a -
              cast_u64 (lp * pool.reserve_a / pool.total_lp_supply),
            reserve_b := pool.reserve_b -
              cast_u64 (lp * pool.reserve_b / pool.total_lp_supply),
            total_lp_supply := pool.total_lp_supply - lp },
         cast_u64 (lp * pool.reserve_a / pool.total_lp_supply),
         cast_u64 (lp * pool.reserve_b / pool.total_lp_supply)) := by
  unfold process_remove_liquidity at h
  cases h1 : checked_mul_u128 lp pool.reserve_a with
  | none => simp [h1] at h
  | some ta =>
    simp only [h1] at h
    cases h2 : checked_div ta pool.total_lp_supply with
    | none => simp [h2] at h
    | some qa =>
      simp only [h2] at h
      cases h3 : checked_mul_u128 lp pool.reserve_b with
      | none => simp [h3] at h
      | some tb =>
        simp only [h3] at h
        cases h4 : checked_div tb pool.total_lp_supply with
        | none => simp [h4] at h
        | some qb =>
          simp only [h4] at h
          cases h5 : checked_sub pool.reserve_a (cast_u64 qa) with
          | none => simp [h5] at h
          | some ra =>
            cases h6 : checked_sub pool.reserve_b (cast_u64 qb) with
            | none => simp [h5, h6] at h
            | some rb =>
              cases h7 : checked_sub pool.total_lp_supply lp with
              | none => simp [h5, h6, h7] at h
              | some supply =>
                simp only [h5, h6, h7, Except.ok.injEq] at h
                obtain ⟨hta, _⟩ := checked_mul_u128_some h1
                obtain ⟨hqa, hsup⟩ := checked_div_some h2
                obtain ⟨htb, _⟩ := checked_mul_u128_some h3
                obtain ⟨hqb, _⟩ := checked_div_some h4
                obtain ⟨hra, hlea⟩ := checked_sub_some h5
                obtain ⟨hrb, hleb⟩ := checked_sub_some h6
                obtain ⟨hsupply, hlelp⟩ := checked_sub_some h7
                subst hta htb
                subst hqa hqb
                refine ⟨hsup, hlelp, hlea, hleb, ?_⟩
                rw [← h]
                rw [hra, hrb, hsupply]

lemma add_liquidity_ok_inv {pool : Pool} {a b : Nat} {p' : Pool}
    (h : process_add_liquidity pool a b = .ok p') :
    ∃ fa fb liq,
      add_liquidity_final_amounts pool a b = .ok (fa, fb) ∧
      p' = { pool with reserve_a := pool.reserve_a + fa,
                       reserve_b := pool.reserve_b + fb,
                       total_lp_supply := pool.total_lp_supply + liq } ∧
      (pool.total_lp_supply = 0 →
        fa * fb < U128_SIZE ∧ liq = cast_u64 (integer_sqrt (fa * fb))) := by
  unfold process_add_liquidity at h
  cases hfin : add_liquidity_final_amounts pool a b with
  | error e => simp [hfin] at h
  | ok fp =>
    obtain ⟨fa, fb⟩ := fp
    simp only [hfin] at h
    refine ⟨fa, fb, ?_⟩
    by_cases hsup : pool.total_lp_supply = 0
    · rw [if_pos hsup] at h
      cases hm : checked_mul_u128 fa fb with
      | none => simp [hm] at h
      | some prod =>
        simp only [hm] at h
        cases h1 : checked_add_u64 pool.reserve_a fa with
        | none => simp [h1] at h
        | some ra =>
          cases h2 : checked_add_u64 pool.reserve_b fb with
          | none => simp [h1, h2] at h
          | some rb =>
            cases h3 : checked_add_u64 pool.total_lp_supply
                (cast_u64 (integer_sqrt prod)) with
            | none => simp [h1, h2, h3] at h
            | some supply =>
              simp only [h1, h2, h3, Except.ok.injEq] at h
              obtain ⟨hprod, hlt⟩ := checked_mul_u128_some hm
              subst hprod
              obtain ⟨hra, _⟩ := checked_add_u64_some h1
              obtain ⟨hrb, _⟩ := checked_add_u64_some h2
              obtain ⟨hsupply, _⟩ := checked_add_u64_some h3
              refine ⟨cast_u64 (integer_sqrt (fa * fb)), rfl, ?_, fun _ => ⟨hlt, rfl⟩⟩
              rw [← h, hra, hrb, hsupply]
    · simp only [hsup, if_false, ite_false] at h
      cases hm : checked_mul_u128 fa pool.total_lp_supply with
      | none => simp [hm] at h
      | some t =>
        simp only [hm] at h
        cases hd : checked_div t pool.reserve_a with
        | none => simp [hd] at h
        | some q =>
          simp only [hd] at h
          cases h1 : checked_add_u64 pool.reserve_a fa with
          | none => simp [h1] at h
          | some ra =>
            cases h2 : checked_add_u64 pool.reserve_b fb with
            | none => simp [h1, h2] at h
            | some rb =>
              cases h3 : checked_add_u64 pool.total_lp_supply (cast_u64 q) with
              | none => simp [h1, h2, h3] at h
              | some supply =>
                simp only [h1, h2, h3, Except.ok.injEq] at h
                obtain ⟨hra, _⟩ := checked_add_u64_some h1
                obtain ⟨hrb, _⟩ := checked_add_u64_some h2
                obtain ⟨hsupply, _⟩ := checked_add_u64_some h3
                refine ⟨cast_u64 q, rfl, ?_, fun hz => absurd hz hsup⟩
                rw [← h, hra, hrb, hsupply]

lemma add_liquidity_final_amounts_of_empty {pool : Pool} {a b : Nat}
    (hra : pool.reserve_a = 0) :
    add_liquidity_final_amounts pool a b = .ok (a, b) := by
  unfold add_liquidity_final_amounts
  rw [if_neg (by omega)]

lemma inv_of_first_deposit {a b : Nat} (hab : a * b < U128_SIZE)
    (hcond : a = 0 ∨ 0 < b) :
    (a = 0 ↔ cast_u64 (integer_sqrt (a * b)) = 0) := by
  have hsq : integer_sqrt (a * b) < U64_SIZE := by
    rw [integer_sqrt_eq_sqrt, Nat.sqrt_lt]
    calc a * b < U128_SIZE := hab
    _ = U64_SIZE * U64_SIZE := by norm_num [U64_SIZE, U128_SIZE]
  rw [cast_u64_eq hsq, integer_sqrt_eq_sqrt, Nat.sqrt_eq_zero, Nat.mul_eq_zero]
  constructor
  · intro ha
    exact Or.inl ha
  · intro hor
    rcases hor with ha | hb
    · exact ha
    · rcases hcond with ha | hbpos
      · exact ha
      · omega

lemma swap_step_preserves_inv {pool pool' : Pool} {x out : Nat} {d : Bool}
    (hinv : pool_inv pool) (h : swap_step pool x d = .ok (pool', out)) :
    pool_inv pool' := by
  obtain ⟨hq, hupd⟩ := swap_step_ok_inv h
  unfold pool_inv at hinv ⊢
  cases d
  · simp only [Bool.false_eq_true, if_false, ite_false] at hq hupd
    obtain ⟨hp, _, hle, _⟩ := hupd
    subst hp
    obtain ⟨hx, hrb, hra, _, _⟩ := quote_ok_inv hq
    obtain ⟨hlt, _⟩ := quote_ok_bounds hrb hq
    simp only []
    omega
  · simp only [if_true, ite_true] at hq hupd
    obtain ⟨hp, _, hle, _⟩ := hupd
    subst hp
    obtain ⟨hx, hra, hrb, _, _⟩ := quote_ok_inv hq
    simp only []
    omega

lemma run_hops_preserves_inv :
    ∀ (path : List Nat) (pools : List Pool) (amount out : Nat) (pools' : List Pool),
      run_hops pools amount path = .ok (out, pools') →
      (∀ q ∈ pools, pool_inv q) → ∀ q ∈ pools', pool_inv q := by
  intro path
  induction path with
  | nil =>
    intro pools amount out pools' h hall
    simp only [run_hops, Except.ok.injEq, Prod.mk.injEq] at h
    rw [← h.2]
    exact hall
  | cons t1 tl ih =>
    cases tl with
    | nil =>
      intro pools amount out pools' h hall
      simp only [run_hops, Except.ok.injEq, Prod.mk.injEq] at h
      rw [← h.2]
      exact hall
    | cons t2 rest =>
      intro pools amount out pools' h hall
      cases pools with
      | nil => simp [run_hops] at h
      | cons pool pools1 =>
        simp only [run_hops] at h
        cases hd : hop_direction pool t1 t2 with
        | error e => simp [hd] at h
        | ok d =>
          simp only [hd] at h
          cases hs : swap_step pool amount d with
          | error e => simp [hs] at h
          | ok po =>
            obtain ⟨pool1, amount1⟩ := po
            simp only [hs] at h
            cases hr : run_hops pools1 amount1 (t2 :: rest) with
            | error e => simp [hr] at h
            | ok fr =>
              obtain ⟨final, restp⟩ := fr
              simp only [hr, Except.ok.injEq, Prod.mk.injEq] at h
              obtain ⟨_, hps⟩ := h
              rw [← hps]
              intro q hq
              rcases List.mem_cons.1 hq with rfl | hmem
              · exact swap_step_preserves_inv (hall pool (List.mem_cons_self _ _)) hs
              · exact ih pools1 amount1 final restp hr
                  (fun r hr2 => hall r (List.mem_cons_of_mem _ hr2)) q hmem

lemma collect_fees_ok_inv {pool : Pool} {tr auth : Nat} {p' : Pool}
    (h : process_collect_fees pool tr auth = .ok p') :
    p' = { pool with fee_collected_a := 0, fee_collected_b := 0 } := by
  unfold process_collect_fees at h
  split_ifs at h with h1
  · exact (Except.ok.injEq _ _ ▸ h).symm

lemma withdraw_fees_ok_inv {pool : Pool} {tr auth a b : Nat} {p' : Pool}
    (h : process_withdraw_fees pool tr auth a b = .ok p') :
    p' = { pool with fee_collected_a := pool.fee_collected_a - a,
                     fee_collected_b := pool.fee_collected_b - b } := by
  unfold process_withdraw_fees at h
  split_ifs at h with h1 h2 h3
  cases h4 : checked_sub pool.fee_collected_a a with
  | none => rw [h4] at h; simp at h
  | some fa =>
    cases h5 : checked_sub pool.fee_collected_b b with
    | none => rw [h4, h5] at h; simp at h
    | some fb =>
      rw [h4, h5] at h
      simp only [Except.ok.injEq] at h
      obtain ⟨hfa, _⟩ := checked_sub_some h4
      obtain ⟨hfb, _⟩ := checked_sub_some h5
      rw [← h, hfa, hfb]

/-- C9 counterexample: InitPool with caller-supplied amounts (1, 0)
commits a pool with reserve_a = 1 but total_lp_supply = isqrt(0) = 0,
violating reserve_a == 0 <=> total_share_supply == 0. -/
theorem C9_reserve_share_invariant_counterexample :
    (process_init_pool 1 2 255 1 0).map
        (fun p => decide (p.reserve_a = 0 ↔ p.total_lp_supply = 0)) = .ok false ∧
    (process_init_pool 1 2 255 1 0).map Pool.reserve_a = .ok 1 ∧
    (process_init_pool 1 2 255 1 0).map Pool.total_lp_supply = .ok 0 :=
  ⟨rfl, rfl, rfl⟩

/-- C9 (amended): reserve_a == 0 <=> total_share_supply == 0 holds after
InitPool whenever the deposit is not of the degenerate shape
amount_a > 0 ∧ amount_b = 0, and is preserved by Swap, RemoveLiquidity
(from any u64-bounded reserve), AddLiquidity (except the same degenerate
first-deposit shape), MultihopSwapWithPath, CollectFees, WithdrawFees and
SetFeeTreasury. -/
theorem C9_reserve_share_invariant_amended :
    (∀ ta tb bump a b p, (a = 0 ∨ 0 < b) →
        process_init_pool ta tb bump a b = .ok p → pool_inv p) ∧
    (∀ p x d p', pool_inv p → process_swap p x d = .ok p' → pool_inv p') ∧
    (∀ p lp r, pool_inv p → p.reserve_a < U64_SIZE →
        process_remove_liquidity p lp = .ok r → pool_inv r.1) ∧
    (∀ p a b p', pool_inv p → (p.total_lp_supply ≠ 0 ∨ a = 0 ∨ 0 < b) →
        process_add_liquidity p a b = .ok p' → pool_inv p') ∧
    (∀ pools x m path r, (∀ q ∈ pools, pool_inv q) →
        process_multihop_swap_with_path pools x m path = .ok r →
        ∀ q ∈ r.2, pool_inv q) ∧
    (∀ p tr auth p', pool_inv p → process_collect_fees p tr auth = .ok p' →
        pool_inv p') ∧
    (∀ p tr auth a b p', pool_inv p →
        process_withdraw_fees p tr auth a b = .ok p' → pool_inv p') ∧
    (∀ p tr auth p', pool_inv p → process_set_fee_treasury p tr auth = .ok p' →
        pool_inv p') := by
  refine ⟨?_, ?_, ?_, ?_, ?_, ?_, ?_, ?_⟩
  · intro ta tb bump a b p hcond h
    unfold process_init_pool at h
    cases hm : checked_mul_u128 a b with
    | none => simp [hm] at h
    | some prod =>
      simp only [hm, Except.ok.injEq] at h
      obtain ⟨hprod, hlt⟩ := checked_mul_u128_some hm
      subst hprod
      rw [← h]
      unfold pool_inv
      exact inv_of_first_deposit hlt hcond
  · intro p x d p' hinv h
    obtain ⟨out, hs⟩ := process_swap_ok_inv h
    exact swap_step_preserves_inv hinv hs
  · intro p lp r hinv hra64 h
    obtain ⟨hsup, hlp, hlea, hleb, hr⟩ := remove_liquidity_ok_inv h
    rw [hr]
    unfold pool_inv at hinv ⊢
    simp only []
    have hra : 0 < p.reserve_a := by omega
    by_cases hcase : lp = p.total_lp_supply
    · subst hcase
      rw [Nat.mul_div_cancel_left _ hsup, cast_u64_eq hra64]
      omega
    · have hltlp : lp < p.total_lp_supply := by omega
      have hq : lp * p.reserve_a / p.total_lp_supply < p.reserve_a := by
        rw [Nat.div_lt_iff_lt_mul hsup]
        calc lp * p.reserve_a < p.total_lp_supply * p.reserve_a :=
              mul_lt_mul_of_pos_right hltlp hra
        _ = p.reserve_a * p.total_lp_supply := Nat.mul_comm _ _
      rw [cast_u64_eq (lt_trans hq hra64)]
      omega
  · intro p a b p' hinv hcond h
    obtain ⟨fa, fb, liq, hfin, hp', hzero⟩ := add_liquidity_ok_inv h
    unfold pool_inv at hinv ⊢
    by_cases hsup : p.total_lp_supply = 0
    · have hra : p.reserve_a = 0 := by omega
      rw [add_liquidity_final_amounts_of_empty hra] at hfin
      simp only [Except.ok.injEq, Prod.mk.injEq] at hfin
      obtain ⟨hfa, hfb⟩ := hfin
      subst hfa
      subst hfb
      obtain ⟨hlt, hliq⟩ := hzero hsup
      subst hliq
      rw [hp']
      simp only [hra, hsup, Nat.zero_add]
      exact inv_of_first_deposit hlt (by omega)
    · rw [hp']
      simp only []
      omega
  · intro pools x m path r hall h
    unfold process_multihop_swap_with_path at h
    split_ifs at h with hlen
    cases hr : run_hops pools x path with
    | error e => simp [hr] at h
    | ok fr =>
      obtain ⟨f1, f2⟩ := fr
      simp only [hr] at h
      split_ifs at h with hmin
      simp only [Except.ok.injEq] at h
      rw [← h]
      exact run_hops_preserves_inv path pools x f1 f2 hr hall
  · intro p tr auth p' hinv h
    rw [collect_fees_ok_inv h]
    unfold pool_inv at hinv ⊢
    exact hinv
  · intro p tr auth a b p' hinv h
    rw [withdraw_fees_ok_inv h]
    unfold pool_inv at hinv ⊢
    exact hinv
  · intro p tr auth p' hinv h
    unfold process_set_fee_treasury at h
    simp only [Except.ok.injEq] at h
    rw [← h]
    unfold pool_inv at hinv ⊢
    exact hinv

/-- C9 witness: a healthy first deposit (1000, 2000) establishes the
invariant on the committed record. -/
theorem C9_reserve_share_invariant_amended_witness :
    ((1000 : Nat) = 0 ∨ (0 : Nat) < 2000) ∧
    pool_inv ⟨1, 2, 255, 1000, 2000, 1414, 0, 0, 0⟩ :=
  ⟨Or.inr (by norm_num),
   C9_reserve_share_invariant_amended.1 1 2 255 1000 2000
     ⟨1, 2, 255, 1000, 2000, 1414, 0, 0, 0⟩ (Or.inr (by norm_num)) rfl⟩

end GorbSwap
